import Mathlib

/-!
Verification of the Simple_LineUp_Optimizer repository: a shallow embedding of
the stochastic game simulation engine (game_simulator.py), the random-search
helpers (lineup_optimizer.py), the evolutionary search engine
(genetic_optimizer.py) and the seeding step of the orchestration layer
(master_optimizer.py), together with theorems settling the specification
claims about them.

Randomness is embedded as an explicit stream of natural numbers
(the process-wide PRNG), consumed one draw at a time through an explicit
position counter; random.choice and random.sample are modelled so that their
set of reachable outputs coincides with the Python functions.  Python floats
are modelled as rationals.  Fallible operations (empty-sequence choice,
oversized sample, out-of-range indexing, unbounded loops cut by fuel) return
Option.
-/

/-- One at-bat result class, as produced by player_hit in game_simulator.py. -/
inductive Outcome where
  | out
  | single
  | double
  | triple
  | homer
deriving DecidableEq

/-- Player record from game_simulator.py: name and the empirical counts.
Counts are Python ints, so they are embedded as integers; hits and outs are
the derived fields computed in the constructor. -/
structure Player where
  name : String
  ab : Int
  singles : Int
  doubles : Int
  triples : Int
  homers : Int
deriving DecidableEq

/-- Derived field hits = singles + doubles + triples + homers. -/
def Player.hits (p : Player) : Int :=
  p.singles + p.doubles + p.triples + p.homers

/-- Derived field outs = ab - hits. -/
def Player.outsCount (p : Player) : Int :=
  p.ab - p.hits

/-- The token multiset built by player_hit:
[out]*outs + [1B]*singles + [2B]*doubles + [3B]*triples + [HR]*homers.
Python list repetition with a nonpositive factor yields the empty list, which
Int.toNat reproduces exactly. -/
def playerOutcomes (p : Player) : List Outcome :=
  List.replicate p.outsCount.toNat .out ++
  List.replicate p.singles.toNat .single ++
  List.replicate p.doubles.toNat .double ++
  List.replicate p.triples.toNat .triple ++
  List.replicate p.homers.toNat .homer

/-- The process-wide PRNG, embedded as an infinite stream of draws. -/
def Rng : Type := Nat → Nat

/-- random.choice(l): picks an element of l, consuming one draw; fails on an
empty list (IndexError in Python).  The draw is reduced modulo the length, so
every position is reachable. -/
def randChoice {α : Type} (l : List α) (r : Rng) (k : Nat) : Option (α × Nat) :=
  (l[r k % l.length]?).map (fun a => (a, k + 1))

/-- player_hit from game_simulator.py: one weighted draw from the token
multiset of the player. -/
def player_hit (p : Player) (r : Rng) (k : Nat) : Option (Outcome × Nat) :=
  randChoice (playerOutcomes p) r k

/-- Loop state of simulate_inning: the three base slots
(bases[0] = first, bases[1] = second, bases[2] = third), the out counter,
the run total of the inning and the batting-order cursor. -/
structure InningState where
  first : Option Player
  second : Option Player
  third : Option Player
  outs : Nat
  runs : Nat
  cursor : Nat
deriving DecidableEq

/-- Number of occupied bases: sum(1 for base in bases if base is not None). -/
def occupiedBases (s : InningState) : Nat :=
  (if s.first.isSome then 1 else 0) +
  (if s.second.isSome then 1 else 0) +
  (if s.third.isSome then 1 else 0)

/-- One loop iteration body of simulate_inning (game_simulator.py lines
58-92): apply the drawn outcome for batter p to the state, then advance the
cursor by one modulo the lineup length. -/
def atBatStep (lineupLen : Nat) (s : InningState) (p : Player) (res : Outcome) :
    InningState :=
  let s2 : InningState :=
    match res with
    | .out => { s with outs := s.outs + 1 }
    | .single =>
        { s with
          runs := s.runs + (if s.third.isSome then 1 else 0)
          third := s.second
          second := s.first
          first := some p }
    | .double =>
        { s with
          runs := s.runs + (if s.second.isSome then 1 else 0) +
                  (if s.third.isSome then 1 else 0)
          third := s.first
          second := some p
          first := none }
    | .triple =>
        { s with
          runs := s.runs + occupiedBases s
          first := none
          second := none
          third := some p }
    | .homer =>
        { s with
          runs := s.runs + occupiedBases s + 1
          first := none
          second := none
          third := none }
  { s2 with cursor := (s.cursor + 1) % lineupLen }

/-- The while loop of simulate_inning, with fuel bounding the number of
iterations.  Returns the final state and the next PRNG position; none when
the fuel runs out before three outs, when the cursor is out of range
(IndexError) or when a draw fails (empty token list). -/
def simulateInningAux (lineup : List Player) (r : Rng) :
    Nat → Nat → InningState → Option (InningState × Nat)
  | 0, k, s => if 3 ≤ s.outs then some (s, k) else none
  | fuel + 1, k, s =>
    if 3 ≤ s.outs then some (s, k)
    else
      match lineup[s.cursor]? with
      | none => none
      | some p =>
        match player_hit p r k with
        | none => none
        | some (res, k2) =>
          simulateInningAux lineup r fuel k2 (atBatStep lineup.length s p res)

/-- Initial state of an inning: bases empty, zero outs, zero runs, cursor at
the incoming batter index. -/
def initInning (batterIndex : Nat) : InningState :=
  { first := none, second := none, third := none,
    outs := 0, runs := 0, cursor := batterIndex }

/-- simulate_inning from game_simulator.py: run the loop from the initial
state and return (runs scored, next batter index) plus the PRNG position. -/
def simulate_inning (lineup : List Player) (r : Rng) (fuel k batterIndex : Nat) :
    Option (Nat × Nat × Nat) :=
  (simulateInningAux lineup r fuel k (initInning batterIndex)).map
    (fun x => (x.1.runs, x.1.cursor, x.2))

/-- The inning loop of simulate_game: run the given number of innings,
carrying the batter cursor from each inning output into the next inning
input, returning (total runs, per-inning scores, PRNG position). -/
def simulateGameAux (lineup : List Player) (r : Rng) (fuel : Nat) :
    Nat → Nat → Nat → Option (Nat × List Nat × Nat)
  | 0, k, _ => some (0, [], k)
  | n + 1, k, batterIndex =>
    match simulate_inning lineup r fuel k batterIndex with
    | none => none
    | some (runs, nextBatter, k2) =>
      match simulateGameAux lineup r fuel n k2 nextBatter with
      | none => none
      | some (total, scores, k3) => some (runs + total, runs :: scores, k3)

/-- simulate_game from game_simulator.py: the batter index starts at 0. -/
def simulate_game (lineup : List Player) (r : Rng) (fuel innings k : Nat) :
    Option (Nat × List Nat × Nat) :=
  simulateGameAux lineup r fuel innings k 0

/-- The at-bat outcome drawn at one loop iteration: the token of the current
batter selected by the draw at position k. -/
def outcomeDraw (lineup : List Player) (r : Rng) (k cursor : Nat) :
    Option Outcome :=
  match lineup[cursor]? with
  | none => none
  | some p => (playerOutcomes p)[r k % (playerOutcomes p).length]?

/-- Number of out draws among the next fuel at-bat outcomes, following the
cursor and PRNG-position progression of the inning loop. -/
def countOutsFrom (lineup : List Player) (r : Rng) :
    Nat → Nat → Nat → Nat
  | 0, _, _ => 0
  | fuel + 1, k, cursor =>
    (if outcomeDraw lineup r k cursor = some .out then 1 else 0) +
      countOutsFrom lineup r fuel (k + 1) ((cursor + 1) % lineup.length)

/-- Validity of a player record as stated by the data-model invariant:
positive at-bat count and all five outcome counts nonnegative. -/
def validPlayer (p : Player) : Prop :=
  0 < p.ab ∧ 0 ≤ p.outsCount ∧ 0 ≤ p.singles ∧ 0 ≤ p.doubles ∧
    0 ≤ p.triples ∧ 0 ≤ p.homers

instance : DecidablePred validPlayer := fun p => by
  unfold validPlayer; infer_instance

/-- Transition table written from the specification wording (spec 4.2), to be
compared with the source-derived atBatStep: OUT only increments outs; SINGLE
scores a runner on third and advances each runner one base with the batter to
first; DOUBLE scores second and third, moves a first-base runner to third,
puts the batter on second and empties first; TRIPLE scores all occupied
runners and leaves only the batter on third; HOME_RUN scores all occupied
runners plus the batter and empties the bases; the cursor always advances by
one modulo the lineup length. -/
def specAtBatStep (lineupLen : Nat) (s : InningState) (p : Player)
    (res : Outcome) : InningState :=
  match res with
  | .out =>
      { first := s.first, second := s.second, third := s.third,
        outs := s.outs + 1, runs := s.runs,
        cursor := (s.cursor + 1) % lineupLen }
  | .single =>
      { first := some p, second := s.first, third := s.second,
        outs := s.outs,
        runs := s.runs + (if s.third.isSome then 1 else 0),
        cursor := (s.cursor + 1) % lineupLen }
  | .double =>
      { first := none, second := some p, third := s.first,
        outs := s.outs,
        runs := s.runs + (if s.second.isSome then 1 else 0) +
                (if s.third.isSome then 1 else 0),
        cursor := (s.cursor + 1) % lineupLen }
  | .triple =>
      { first := none, second := none, third := some p,
        outs := s.outs,
        runs := s.runs + ((if s.first.isSome then 1 else 0) +
                (if s.second.isSome then 1 else 0) +
                (if s.third.isSome then 1 else 0)),
        cursor := (s.cursor + 1) % lineupLen }
  | .homer =>
      { first := none, second := none, third := none,
        outs := s.outs,
        runs := s.runs + ((if s.first.isSome then 1 else 0) +
                (if s.second.isSome then 1 else 0) +
                (if s.third.isSome then 1 else 0)) + 1,
        cursor := (s.cursor + 1) % lineupLen }

/-- C4: each at-bat step of the inning loop, on any state with fewer than
three outs, realizes exactly the transition table of the spec, including the
cursor advancing by one modulo the lineup length in every case. -/
theorem atBatStep_follows_spec_table (lineupLen : Nat) (s : InningState)
    (p : Player) (res : Outcome) (_houts : s.outs < 3) :
    atBatStep lineupLen s p res = specAtBatStep lineupLen s p res := by
  cases res <;> rfl

/-- Witness for C4 at a concrete state: two outs, runner on third, a single
scores one run and moves the batter to first. -/
theorem atBatStep_follows_spec_table_witness :
    ((⟨none, none, some ⟨"T", 1, 0, 0, 0, 0⟩, 2, 0, 1⟩ : InningState).outs < 3) ∧
    atBatStep 3 ⟨none, none, some ⟨"T", 1, 0, 0, 0, 0⟩, 2, 0, 1⟩
        ⟨"B", 1, 0, 0, 0, 0⟩ .single =
      specAtBatStep 3 ⟨none, none, some ⟨"T", 1, 0, 0, 0, 0⟩, 2, 0, 1⟩
        ⟨"B", 1, 0, 0, 0, 0⟩ .single :=
  ⟨by decide, atBatStep_follows_spec_table 3 _ _ .single (by decide)⟩

/-- A player with one single and one out among two at-bats: the token list is
[out, single], so draw value 1 selects a single and draw value 0 an out. -/
def pSingleOut (n : String) : Player := ⟨n, 2, 1, 0, 0, 0⟩

/-- Concrete 3-player lineup used for the fixed-sequence inning scenario. -/
def lineupC3 : List Player := [pSingleOut "P1", pSingleOut "P2", pSingleOut "P3"]

/-- PRNG stream realizing the at-bat sequence
[SINGLE, SINGLE, SINGLE, OUT, OUT, OUT] against lineupC3. -/
def rngC3 : Rng := fun n => if n < 3 then 1 else 0

/-- C3 counterexample: on the fixed at-bat sequence
[SINGLE, SINGLE, SINGLE, OUT, OUT, OUT] with a 3-player lineup, starting from
the initial state, the inning scores exactly 0 runs, not 1 as the claim
states.  The first conjunct checks that the six draws realize exactly that
outcome sequence; the last conjunct refutes the claimed run total. -/
theorem inning_fixed_sequence_not_one_run :
    ((List.range 6).map (fun t => outcomeDraw lineupC3 rngC3 t (t % 3)) =
      [some .single, some .single, some .single,
       some .out, some .out, some .out]) ∧
    simulate_inning lineupC3 rngC3 7 0 0 = some (0, 0, 6) ∧
    ¬ ((simulate_inning lineupC3 rngC3 7 0 0).map (fun x => x.1) = some 1) := by
  refine ⟨by decide, by decide, by decide⟩

/-- C3 amended: the fixed sequence [SINGLE, SINGLE, SINGLE, OUT, OUT, OUT]
with a 3-player lineup loads the bases on the three singles with 0 runs
scored, and the three outs end the inning with exactly 0 runs; the next
batter cursor is back at position 0 after six at-bats. -/
theorem inning_fixed_sequence_zero_runs :
    simulate_inning lineupC3 rngC3 7 0 0 = some (0, 0, 6) ∧
    simulateInningAux lineupC3 rngC3 7 3 (atBatStep 3
      (atBatStep 3 (atBatStep 3 (initInning 0) (pSingleOut "P1") .single)
        (pSingleOut "P2") .single) (pSingleOut "P3") .single) =
      simulateInningAux lineupC3 rngC3 7 3
        ⟨some (pSingleOut "P3"), some (pSingleOut "P2"), some (pSingleOut "P1"),
         0, 0, 0⟩ := by
  refine ⟨by decide, by decide⟩

/-- random.choice fails exactly on the empty sequence. -/
theorem randChoice_none_iff {α : Type} (l : List α) (r : Rng) (k : Nat) :
    randChoice l r k = none ↔ l = [] := by
  cases l with
  | nil => simp [randChoice]
  | cons a t =>
    have h : r k % (a :: t).length < (a :: t).length :=
      Nat.mod_lt _ (by simp)
    simp [randChoice, List.getElem?_eq_getElem h]
    exact Nat.mod_lt _ (Nat.succ_pos _)

/-- On a nonempty sequence, random.choice returns the element indexed by the
draw reduced modulo the length, and consumes exactly one draw. -/
theorem randChoice_some {α : Type} (l : List α) (r : Rng) (k : Nat)
    (h : l ≠ []) :
    randChoice l r k =
      some (l.get ⟨r k % l.length, Nat.mod_lt _ (List.length_pos.mpr h)⟩,
        k + 1) := by
  simp [randChoice,
    List.getElem?_eq_getElem (Nat.mod_lt _ (List.length_pos.mpr h))]

/-- Length of the token list is the at-bat count whenever the five stored
counts are nonnegative. -/
theorem playerOutcomes_length (p : Player) (ho : 0 ≤ p.outsCount)
    (hs : 0 ≤ p.singles) (hd : 0 ≤ p.doubles) (ht : 0 ≤ p.triples)
    (hh : 0 ≤ p.homers) : (playerOutcomes p).length = p.ab.toNat := by
  have : p.outsCount = p.ab - (p.singles + p.doubles + p.triples + p.homers) := by
    simp [Player.outsCount, Player.hits]
  simp only [playerOutcomes, List.length_append, List.length_replicate]
  omega

/-- C8: for a player with positive at-bat count and nonnegative outcome
counts, player_hit draws from a token list containing exactly the stored
count of each outcome class (p.ab tokens in total) and returns one of its
labels, consuming one draw; and for any player with nonnegative counts the
draw fails (no token) exactly when the at-bat count is zero. -/
theorem player_hit_token_draw (p : Player) (r : Rng) (k : Nat)
    (hv : validPlayer p) :
    (playerOutcomes p).length = p.ab.toNat ∧
    (playerOutcomes p).count .out = p.outsCount.toNat ∧
    (playerOutcomes p).count .single = p.singles.toNat ∧
    (playerOutcomes p).count .double = p.doubles.toNat ∧
    (playerOutcomes p).count .triple = p.triples.toNat ∧
    (playerOutcomes p).count .homer = p.homers.toNat ∧
    (∃ o, player_hit p r k = some (o, k + 1) ∧ o ∈ playerOutcomes p) ∧
    (∀ q : Player, 0 ≤ q.outsCount → 0 ≤ q.singles → 0 ≤ q.doubles →
      0 ≤ q.triples → 0 ≤ q.homers →
      (player_hit q r k = none ↔ q.ab = 0)) := by
  obtain ⟨hab, ho, hs, hd, ht, hh⟩ := hv
  refine ⟨playerOutcomes_length p ho hs hd ht hh, ?_, ?_, ?_, ?_, ?_, ?_, ?_⟩
  · simp [playerOutcomes, List.count_append, List.count_replicate]
  · simp [playerOutcomes, List.count_append, List.count_replicate]
  · simp [playerOutcomes, List.count_append, List.count_replicate]
  · simp [playerOutcomes, List.count_append, List.count_replicate]
  · simp [playerOutcomes, List.count_append, List.count_replicate]
  · have hne : playerOutcomes p ≠ [] := by
      have hlen := playerOutcomes_length p ho hs hd ht hh
      intro hcon
      rw [hcon] at hlen
      simp at hlen
      omega
    refine ⟨_, randChoice_some _ r k hne, List.get_mem _ _ _⟩
  · intro q ho2 hs2 hd2 ht2 hh2
    have hq : q.outsCount = q.ab -
        (q.singles + q.doubles + q.triples + q.homers) := by
      simp [Player.outsCount, Player.hits]
    rw [show player_hit q r k = randChoice (playerOutcomes q) r k from rfl,
      randChoice_none_iff]
    constructor
    · intro hnil
      have : (playerOutcomes q).length = 0 := by rw [hnil]; rfl
      simp only [playerOutcomes, List.length_append,
        List.length_replicate] at this
      omega
    · intro hab0
      have h0 : q.outsCount.toNat = 0 ∧ q.singles.toNat = 0 ∧
          q.doubles.toNat = 0 ∧ q.triples.toNat = 0 ∧ q.homers.toNat = 0 := by
        omega
      simp [playerOutcomes, h0.1, h0.2.1, h0.2.2.1, h0.2.2.2.1, h0.2.2.2.2]

/-- Witness for C8 at a concrete player with one single and one out in two
at-bats. -/
theorem player_hit_token_draw_witness :
    validPlayer (pSingleOut "W") ∧
    ∃ o, player_hit (pSingleOut "W") (fun _ => 0) 0 = some (o, 1) ∧
      o ∈ playerOutcomes (pSingleOut "W") :=
  ⟨by decide,
    (player_hit_token_draw (pSingleOut "W") (fun _ => 0) 0
      (by decide)).2.2.2.2.2.2.1⟩

/-- A valid player has a nonempty token list. -/
theorem playerOutcomes_ne_nil (p : Player) (hv : validPlayer p) :
    playerOutcomes p ≠ [] := by
  obtain ⟨hab, ho, hs, hd, ht, hh⟩ := hv
  have hlen := playerOutcomes_length p ho hs hd ht hh
  intro hcon
  rw [hcon] at hlen
  simp at hlen
  omega

/-- On a nonempty sequence, random.choice returns the element at the drawn
index and consumes one draw. -/
theorem randChoice_mem {α : Type} (l : List α) (r : Rng) (k : Nat)
    (h : l ≠ []) :
    ∃ a, randChoice l r k = some (a, k + 1) ∧
      l[r k % l.length]? = some a ∧ a ∈ l := by
  have hlt : r k % l.length < l.length := Nat.mod_lt _ (List.length_pos.mpr h)
  exact ⟨l.get ⟨_, hlt⟩, randChoice_some l r k h,
    by simp [List.getElem?_eq_getElem hlt], List.get_mem _ _ _⟩

/-- The out counter moves exactly by the out indicator of the drawn result. -/
theorem atBatStep_outs (lineupLen : Nat) (s : InningState) (p : Player)
    (res : Outcome) :
    (atBatStep lineupLen s p res).outs =
      s.outs + (if res = .out then 1 else 0) := by
  cases res <;> simp [atBatStep]

/-- The cursor always advances by one modulo the lineup length. -/
theorem atBatStep_cursor (lineupLen : Nat) (s : InningState) (p : Player)
    (res : Outcome) :
    (atBatStep lineupLen s p res).cursor = (s.cursor + 1) % lineupLen := by
  cases res <;> rfl

/-- If the induced outcome stream supplies enough outs to reach three from
the current state, the inning loop terminates within the given fuel. -/
theorem simulateInningAux_terminates (lineup : List Player) (r : Rng)
    (htok : ∀ p ∈ lineup, playerOutcomes p ≠ []) :
    ∀ fuel k (s : InningState), s.cursor < lineup.length →
      3 ≤ s.outs + countOutsFrom lineup r fuel k s.cursor →
      (simulateInningAux lineup r fuel k s).isSome := by
  intro fuel
  induction fuel with
  | zero =>
    intro k s hc hsum
    simp only [countOutsFrom] at hsum
    simp [simulateInningAux, show 3 ≤ s.outs by omega]
  | succ n ih =>
    intro k s hc hsum
    by_cases h3 : 3 ≤ s.outs
    · simp [simulateInningAux, h3]
    · have hp : lineup[s.cursor]? = some lineup[s.cursor] :=
        List.getElem?_eq_getElem hc
      have hpmem : lineup[s.cursor] ∈ lineup := List.getElem_mem hc
      obtain ⟨res, hhit, hidx, hresmem⟩ :=
        randChoice_mem (playerOutcomes lineup[s.cursor]) r k (htok _ hpmem)
      have hod : outcomeDraw lineup r k s.cursor = some res := by
        simp only [outcomeDraw, hp]
        exact hidx
      have hcur2 : (atBatStep lineup.length s lineup[s.cursor]
          res).cursor = (s.cursor + 1) % lineup.length :=
        atBatStep_cursor _ _ _ _
      have hc2 : (atBatStep lineup.length s lineup[s.cursor]
          res).cursor < lineup.length := by
        rw [hcur2]; exact Nat.mod_lt _ (by omega)
      have hsum2 : 3 ≤ (atBatStep lineup.length s lineup[s.cursor]
          res).outs + countOutsFrom lineup r n (k + 1)
            ((atBatStep lineup.length s lineup[s.cursor]
              res).cursor) := by
        rw [atBatStep_outs, hcur2]
        simp only [countOutsFrom, hod] at hsum
        by_cases hro : res = .out <;> simp [hro] at hsum ⊢ <;> omega
      have hrec := ih (k + 1) _ hc2 hsum2
      simp only [simulateInningAux, if_neg h3, hp, player_hit, hhit]
      exact hrec

/-- Whenever the inning loop returns, the loop has stopped at exactly three
outs (given it started with at most three). -/
theorem simulateInningAux_outs_three (lineup : List Player) (r : Rng) :
    ∀ fuel k (s sf : InningState) (kf : Nat),
      simulateInningAux lineup r fuel k s = some (sf, kf) →
      s.outs ≤ 3 → sf.outs = 3 := by
  intro fuel
  induction fuel with
  | zero =>
    intro k s sf kf h hle
    by_cases h3 : 3 ≤ s.outs
    · simp [simulateInningAux, h3] at h
      obtain ⟨h1, h2⟩ := h
      subst h1
      omega
    · simp [simulateInningAux, h3] at h
  | succ n ih =>
    intro k s sf kf h hle
    by_cases h3 : 3 ≤ s.outs
    · simp [simulateInningAux, h3] at h
      obtain ⟨h1, h2⟩ := h
      subst h1
      omega
    · simp only [simulateInningAux, if_neg h3] at h
      split at h
      · exact absurd h (by simp)
      · split at h
        · exact absurd h (by simp)
        · exact ih _ _ _ _ h (by rw [atBatStep_outs]; split <;> omega)

/-- C2 amended: for a lineup of valid players (positive at-bat count,
nonnegative outcome counts) and a batter index in range, simulate_inning
terminates for every PRNG stream whose induced at-bat outcome sequence
contains at least three outs within the given number of at-bats: the loop
stops at exactly three outs and returns the run total, the next batter
cursor and the advanced PRNG position. -/
theorem simulate_inning_terminates (lineup : List Player) (r : Rng)
    (fuel k b : Nat) (hv : ∀ p ∈ lineup, validPlayer p)
    (hb : b < lineup.length)
    (houts : 3 ≤ countOutsFrom lineup r fuel k b) :
    ∃ sf kf, simulateInningAux lineup r fuel k (initInning b) = some (sf, kf) ∧
      sf.outs = 3 ∧
      simulate_inning lineup r fuel k b = some (sf.runs, sf.cursor, kf) := by
  have htok : ∀ p ∈ lineup, playerOutcomes p ≠ [] :=
    fun p hp => playerOutcomes_ne_nil p (hv p hp)
  have h1 := simulateInningAux_terminates lineup r htok fuel k (initInning b)
    (by simpa [initInning] using hb) (by simpa [initInning] using houts)
  obtain ⟨⟨sf, kf⟩, hsome⟩ := Option.isSome_iff_exists.mp h1
  refine ⟨sf, kf, hsome, ?_, ?_⟩
  · exact simulateInningAux_outs_three lineup r fuel k _ sf kf hsome
      (by simp [initInning])
  · simp [simulate_inning, hsome]

/-- Concrete valid player whose every at-bat is an out. -/
def pAllOut : Player := ⟨"A", 1, 0, 0, 0, 0⟩

/-- Witness for C2 (amended) on a one-player lineup whose player always
makes an out: three at-bats of fuel suffice. -/
theorem simulate_inning_terminates_witness :
    ((∀ p ∈ [pAllOut], validPlayer p) ∧ 0 < [pAllOut].length ∧
      3 ≤ countOutsFrom [pAllOut] (fun _ => 0) 3 0 0) ∧
    ∃ sf kf,
      simulateInningAux [pAllOut] (fun _ => 0) 3 0 (initInning 0) =
        some (sf, kf) ∧ sf.outs = 3 ∧
      simulate_inning [pAllOut] (fun _ => 0) 3 0 0 =
        some (sf.runs, sf.cursor, kf) :=
  ⟨⟨by decide, by decide, by decide⟩,
    simulate_inning_terminates [pAllOut] (fun _ => 0) 3 0 0 (by decide)
      (by decide) (by decide)⟩

/-- Concrete valid player with no out token: one at-bat, one single. -/
def pAllSingle : Player := ⟨"H", 1, 1, 0, 0, 0⟩

/-- Against the one-player lineup whose only token is a single, the inning
loop never increments outs, so it never returns, whatever the fuel. -/
theorem inningDivergesAux :
    ∀ fuel k (s : InningState), s.outs = 0 → s.cursor = 0 →
      simulateInningAux [pAllSingle] (fun _ => 0) fuel k s = none := by
  intro fuel
  induction fuel with
  | zero =>
    intro k s h0 hc
    simp [simulateInningAux, h0]
  | succ n ih =>
    intro k s h0 hc
    have h3 : ¬ 3 ≤ s.outs := by omega
    have hp : [pAllSingle][s.cursor]? = some pAllSingle := by rw [hc]; rfl
    have hh : player_hit pAllSingle (fun _ => 0) k = some (.single, k + 1) :=
      rfl
    simp only [simulateInningAux, if_neg h3, hp, hh]
    apply ih
    · rw [atBatStep_outs, h0]
      simp
    · rw [atBatStep_cursor, hc]
      decide

/-- C2 counterexample: the claim fails as stated — there is a Lineup of
valid players (every player has positive at-bat count and nonnegative
outcome counts) and a PRNG stream for which simulate_inning never reaches
three outs: the single player holds only a hit token, so no fuel bound makes
the loop return. -/
theorem inning_nontermination_counterexample :
    validPlayer pAllSingle ∧
    (∀ fuel k, simulateInningAux [pAllSingle] (fun _ => 0) fuel k
      (initInning 0) = none) ∧
    (∀ fuel k, simulate_inning [pAllSingle] (fun _ => 0) fuel k 0 = none) := by
  refine ⟨by decide, ?_, ?_⟩
  · exact fun fuel k => inningDivergesAux fuel k (initInning 0) rfl rfl
  · intro fuel k
    simp [simulate_inning, inningDivergesAux fuel k (initInning 0) rfl rfl]

/-- C9: whenever simulate_game returns, the per-inning score sequence has
length exactly the inning count and sums to the returned total; the batter
cursor starts at 0 for the first inning, and each further inning receives
exactly the cursor returned by the previous inning (last conjunct, the
unfolding of the inning loop). -/
theorem simulate_game_scores (lineup : List Player) (r : Rng)
    (fuel innings k : Nat) :
    (∀ total scores k2,
      simulate_game lineup r fuel innings k = some (total, scores, k2) →
      scores.length = innings ∧ scores.sum = total) ∧
    simulate_game lineup r fuel innings k = simulateGameAux lineup r fuel innings k 0 ∧
    (∀ m k3 b,
      simulateGameAux lineup r fuel (m + 1) k3 b =
        match simulate_inning lineup r fuel k3 b with
        | none => none
        | some (runs, nextBatter, k4) =>
          match simulateGameAux lineup r fuel m k4 nextBatter with
          | none => none
          | some (total, scores, k5) =>
            some (runs + total, runs :: scores, k5)) := by
  refine ⟨?_, rfl, fun m k3 b => rfl⟩
  have haux : ∀ n k3 b total scores k2,
      simulateGameAux lineup r fuel n k3 b = some (total, scores, k2) →
      scores.length = n ∧ scores.sum = total := by
    intro n
    induction n with
    | zero =>
      intro k3 b total scores k2 h
      simp [simulateGameAux] at h
      obtain ⟨h1, h2, h3⟩ := h
      subst h2
      simp [← h1]
    | succ m ih =>
      intro k3 b total scores k2 h
      simp only [simulateGameAux] at h
      split at h
      · exact absurd h (by simp)
      · split at h
        · exact absurd h (by simp)
        · rename_i runs nextBatter k4 heq1 total2 scores2 k5 heq2
          simp only [Option.some.injEq, Prod.mk.injEq] at h
          obtain ⟨h1, h2, h3⟩ := h
          obtain ⟨hl, hs⟩ := ih _ _ _ _ _ heq2
          subst h1
          simp [← h2, hl, hs]
  exact fun total scores k2 h => haux innings k 0 total scores k2 h

/-- Witness for C9: a two-inning game of the always-out player returns the
score list [0, 0], of length 2 and sum 0. -/
theorem simulate_game_scores_witness :
    simulate_game [pAllOut] (fun _ => 0) 4 2 0 = some (0, [0, 0], 6) ∧
    ([0, 0] : List Nat).length = 2 ∧ ([0, 0] : List Nat).sum = 0 :=
  ⟨by decide,
    (simulate_game_scores [pAllOut] (fun _ => 0) 4 2 0).1 0 [0, 0] 6
      (by decide)⟩

/-- random.sample(l, n): n draws without replacement, each draw selecting
one remaining element by index; fails (ValueError in Python) when fewer than
n elements remain.  Every n-permutation of l is reachable. -/
def randSample {α : Type} : List α → Nat → Rng → Nat → Option (List α × Nat)
  | _, 0, _, k => some ([], k)
  | l, n + 1, r, k =>
    match l[r k % l.length]? with
    | none => none
    | some a =>
      match randSample (l.eraseIdx (r k % l.length)) n r (k + 1) with
      | none => none
      | some (rest, k2) => some (a :: rest, k2)

/-- Clamped lineup size stored by the GeneticLineupOptimizer constructor:
self.lineup_size = min(lineup_size, len(players)). -/
def gaLineupSize (players : List Player) (lineup_size : Nat) : Nat :=
  min lineup_size players.length

/-- create_random_lineup from genetic_optimizer.py:
random.sample(self.players, self.lineup_size) with the clamped size. -/
def create_random_lineup (players : List Player) (lineup_size : Nat)
    (r : Rng) (k : Nat) : Option (List Player × Nat) :=
  randSample players (gaLineupSize players lineup_size) r k

/-- generate_random_lineup from lineup_optimizer.py: clamp the requested
size down to the roster size, then sample without replacement. -/
def generate_random_lineup (players : List Player) (lineup_size : Nat)
    (r : Rng) (k : Nat) : Option (List Player × Nat) :=
  randSample players
    (if players.length < lineup_size then players.length else lineup_size) r k

/-- Python float draw random.random(): a uniform multiple of 2^-53 in
[0, 1), modelled on the stream value. -/
def unitDraw (r : Rng) (k : Nat) : ℚ :=
  ((r k % 2 ^ 53 : Nat) : ℚ) / 2 ^ 53

/-- Default player value used only to express list indexing totally; all
uses are guarded by in-range indices. -/
def defaultPlayer : Player := ⟨"", 0, 0, 0, 0, 0⟩

/-- The simultaneous swap lineup[i], lineup[j] = lineup[j], lineup[i] on a
copied list. -/
def swapPositions (lineup : List Player) (i j : Nat) : List Player :=
  (lineup.set i (lineup.getD j defaultPlayer)).set j
    (lineup.getD i defaultPlayer)

/-- swap_mutation from genetic_optimizer.py: with probability mutation_rate
draw two distinct random positions and swap them; otherwise return the
lineup unchanged.  The probability draw always consumes one stream value. -/
def swap_mutation (lineup : List Player) (mutation_rate : ℚ) (r : Rng)
    (k : Nat) : Option (List Player × Nat) :=
  if unitDraw r k < mutation_rate then
    match randSample (List.range lineup.length) 2 r (k + 1) with
    | some ([i, j], k2) => some (swapPositions lineup i j, k2)
    | _ => none
  else some (lineup, k + 1)

/-- order_crossover from genetic_optimizer.py, after the two cut points have
been drawn and sorted (start < stop): the child keeps the parent1 segment
[start, stop) in place, fills the start positions before it with the
players of parent2 not in the segment (in parent2 order), and fills the
size - stop positions after it with the following ones. -/
def order_crossover (parent1 parent2 : List Player) (start stop : Nat) :
    List Player :=
  let seg := (parent1.drop start).take (stop - start)
  let filtered := parent2.filter (fun q => decide (q ∉ seg))
  filtered.take start ++ seg ++
    (filtered.drop start).take (parent1.length - stop)

/-- The random part of order_crossover: start, end = sorted(random.sample
(range(size), 2)). -/
def order_crossover_draw (parent1 parent2 : List Player) (r : Rng)
    (k : Nat) : Option (List Player × Nat) :=
  match randSample (List.range parent1.length) 2 r k with
  | some ([a, b], k2) =>
    some (order_crossover parent1 parent2 (min a b) (max a b), k2)
  | _ => none

/-- Moving the element at position j to the front while writing x at
position j permutes the list with x consed on. -/
theorem get_cons_set_perm {α : Type} :
    ∀ (l : List α) (j : Nat) (x : α) (hj : j < l.length),
      List.Perm (l.get ⟨j, hj⟩ :: l.set j x) (x :: l) := by
  intro l
  induction l with
  | nil => intro j x hj; simp at hj
  | cons a t ih =>
    intro j x hj
    cases j with
    | zero => simpa using List.Perm.swap x a t
    | succ m =>
      have hm : m < t.length := by simpa using hj
      have h1 : List.Perm (t.get ⟨m, hm⟩ :: a :: t.set m x)
          (a :: t.get ⟨m, hm⟩ :: t.set m x) :=
        List.Perm.swap a (t.get ⟨m, hm⟩) (t.set m x)
      have h2 : List.Perm (a :: t.get ⟨m, hm⟩ :: t.set m x) (a :: x :: t) :=
        (ih m x hm).cons a
      have h3 : List.Perm (a :: x :: t) (x :: a :: t) := List.Perm.swap x a t
      simpa using (h1.trans h2).trans h3

/-- Swapping two in-range positions permutes the list. -/
theorem set_set_swap_perm {α : Type} :
    ∀ (l : List α) (i j : Nat) (hi : i < l.length) (hj : j < l.length),
      List.Perm ((l.set i (l.get ⟨j, hj⟩)).set j (l.get ⟨i, hi⟩)) l := by
  intro l
  induction l with
  | nil => intro i j hi _; simp at hi
  | cons a t ih =>
    intro i j hi hj
    cases i with
    | zero =>
      cases j with
      | zero => simp
      | succ m =>
        have hm : m < t.length := by simpa using hj
        simpa using get_cons_set_perm t m a hm
    | succ n =>
      have hn : n < t.length := by simpa using hi
      cases j with
      | zero =>
        simpa using get_cons_set_perm t n a hn
      | succ m =>
        have hm : m < t.length := by simpa using hj
        simpa using (ih n m hn hm).cons a

/-- Core invariant of order crossover: for duplicate-free parents that are
permutations of each other, the child is a permutation of parent1, for any
sorted in-range cut-point pair. -/
theorem order_crossover_perm (parent1 parent2 : List Player)
    (start stop : Nat) (hnd : parent1.Nodup)
    (hperm : List.Perm parent1 parent2)
    (hss : start < stop) (hstop : stop < parent1.length) :
    List.Perm (order_crossover parent1 parent2 start stop) parent1 := by
  set seg := (parent1.drop start).take (stop - start) with hseg
  set filtered := parent2.filter (fun q => decide (q ∉ seg)) with hfil
  have hchild : order_crossover parent1 parent2 start stop =
      filtered.take start ++ seg ++
        (filtered.drop start).take (parent1.length - stop) := rfl
  have hsub : seg.Sublist parent1 :=
    (List.take_sublist _ _).trans (List.drop_sublist _ _)
  have hsegnd : seg.Nodup := hsub.nodup hnd
  have hseglen : seg.length = stop - start := by
    rw [hseg]
    simp [List.length_take, List.length_drop]
    omega
  have hp2nd : parent2.Nodup := (hperm.nodup_iff).mp hnd
  have hinseg : List.Perm
      (parent2.filter (fun q => !(fun q => decide (q ∉ seg)) q)) seg := by
    apply (List.perm_ext_iff_of_nodup (hp2nd.filter _) hsegnd).mpr
    intro a
    simp only [List.mem_filter, Bool.not_eq_eq_eq_not, Bool.not_true,
      decide_eq_false_iff_not, not_not]
    constructor
    · rintro ⟨h2, hseg2⟩
      exact hseg2
    · intro ha
      exact ⟨hperm.mem_iff.mp (hsub.subset ha), ha⟩
  have happ : List.Perm (filtered ++ seg) parent2 :=
    (List.Perm.append_left filtered hinseg.symm).trans
      (List.filter_append_perm _ parent2)
  have hflen : filtered.length + seg.length = parent1.length := by
    have h1 := happ.length_eq
    have h2 := hperm.length_eq
    simp only [List.length_append] at h1
    omega
  have hdrop : (filtered.drop start).take (parent1.length - stop) =
      filtered.drop start := by
    apply List.take_of_length_le
    simp only [List.length_drop]
    omega
  rw [hchild, hdrop]
  have h1 : List.Perm
      (filtered.take start ++ seg ++ filtered.drop start) (filtered ++ seg) := by
    rw [List.append_assoc]
    refine (List.Perm.append_left (filtered.take start)
      (@List.perm_append_comm _ seg (filtered.drop start))).trans ?_
    rw [← List.append_assoc, List.take_append_drop]
  exact (h1.trans happ).trans hperm.symm

/-- Every element of a successful random sample comes from the population. -/
theorem randSample_mem {α : Type} :
    ∀ (n : Nat) (l : List α) (r : Rng) (k : Nat) (out : List α) (k2 : Nat),
      randSample l n r k = some (out, k2) → ∀ x ∈ out, x ∈ l := by
  intro n
  induction n with
  | zero =>
    intro l r k out k2 h x hx
    simp [randSample] at h
    obtain ⟨h1, h2⟩ := h
    subst h1
    simp at hx
  | succ m ih =>
    intro l r k out k2 h x hx
    cases hget : l[r k % l.length]? with
    | none =>
      simp only [randSample, hget] at h
      exact absurd h (by simp)
    | some a =>
      cases hrec : randSample (l.eraseIdx (r k % l.length)) m r (k + 1) with
      | none =>
        simp only [randSample, hget, hrec] at h
        exact absurd h (by simp)
      | some pr =>
        obtain ⟨rest, k3⟩ := pr
        simp only [randSample, hget, hrec, Option.some.injEq,
          Prod.mk.injEq] at h
        obtain ⟨h1, h2⟩ := h
        subst h1
        rcases List.mem_cons.mp hx with h3 | h4
        · subst h3
          exact List.getElem?_mem hget
        · exact List.mem_of_mem_eraseIdx (ih _ r (k + 1) _ _ hrec x h4)

/-- A random sample of at most the population size always succeeds and has
exactly the requested length. -/
theorem randSample_success {α : Type} :
    ∀ (n : Nat) (l : List α) (r : Rng) (k : Nat), n ≤ l.length →
      ∃ out k2, randSample l n r k = some (out, k2) ∧ out.length = n := by
  intro n
  induction n with
  | zero => intro l r k _; exact ⟨[], k, rfl, rfl⟩
  | succ m ih =>
    intro l r k h
    have hlpos : 0 < l.length := by omega
    have hidx : r k % l.length < l.length := Nat.mod_lt _ hlpos
    have hget : l[r k % l.length]? = some l[r k % l.length] :=
      List.getElem?_eq_getElem hidx
    have hlen2 : m ≤ (l.eraseIdx (r k % l.length)).length := by
      rw [List.length_eraseIdx_of_lt hidx]
      omega
    obtain ⟨rest, k2, hrec, hrl⟩ := ih (l.eraseIdx (r k % l.length)) r (k + 1)
      hlen2
    refine ⟨l[r k % l.length] :: rest, k2, ?_, by simp [hrl]⟩
    simp only [randSample, hget, hrec]

/-- A random sample from a duplicate-free population is duplicate-free. -/
theorem randSample_nodup {α : Type} [DecidableEq α] :
    ∀ (n : Nat) (l : List α) (r : Rng) (k : Nat) (out : List α) (k2 : Nat),
      randSample l n r k = some (out, k2) → l.Nodup → out.Nodup := by
  intro n
  induction n with
  | zero =>
    intro l r k out k2 h _
    simp [randSample] at h
    obtain ⟨h1, _⟩ := h
    subst h1
    exact List.nodup_nil
  | succ m ih =>
    intro l r k out k2 h hl
    cases hget : l[r k % l.length]? with
    | none =>
      simp only [randSample, hget] at h
      exact absurd h (by simp)
    | some a =>
      cases hrec : randSample (l.eraseIdx (r k % l.length)) m r (k + 1) with
      | none =>
        simp only [randSample, hget, hrec] at h
        exact absurd h (by simp)
      | some pr =>
        obtain ⟨rest, k3⟩ := pr
        simp only [randSample, hget, hrec, Option.some.injEq,
          Prod.mk.injEq] at h
        obtain ⟨h1, _⟩ := h
        subst h1
        have hidx : r k % l.length < l.length := by
          cases Nat.lt_or_ge (r k % l.length) l.length with
          | inl hlt => exact hlt
          | inr hge => rw [List.getElem?_eq_none hge] at hget; exact absurd hget (by simp)
        have ha : a = l[r k % l.length] := by
          rw [List.getElem?_eq_getElem hidx] at hget
          exact (Option.some.inj hget).symm
        have hrest : rest.Nodup := ih _ r (k + 1) _ _ hrec (hl.eraseIdx _)
        have hnotmem : a ∉ rest := by
          intro hmem
          have hsub := randSample_mem m _ r (k + 1) rest k3 hrec a hmem
          rw [← hl.erase_getElem (r k % l.length) hidx, ← ha] at hsub
          exact hl.not_mem_erase hsub
        exact List.nodup_cons.mpr ⟨hnotmem, hrest⟩

/-- Whenever swap_mutation returns, its output is a permutation of the
input lineup: either the lineup unchanged, or the lineup with two in-range
positions exchanged. -/
theorem swap_mutation_perm (lineup : List Player) (mutation_rate : ℚ)
    (r : Rng) (k : Nat) (out : List Player) (k2 : Nat)
    (h : swap_mutation lineup mutation_rate r k = some (out, k2)) :
    List.Perm out lineup := by
  by_cases hif : unitDraw r k < mutation_rate
  · cases hs : randSample (List.range lineup.length) 2 r (k + 1) with
    | none =>
      simp only [swap_mutation, if_pos hif, hs] at h
      exact absurd h (by simp)
    | some pr =>
      obtain ⟨idxs, k3⟩ := pr
      have hmem := randSample_mem 2 _ r (k + 1) idxs k3 hs
      rcases idxs with _ | ⟨i, _ | ⟨j, _ | ⟨c, t⟩⟩⟩
      · simp only [swap_mutation, if_pos hif, hs] at h
        exact absurd h (by simp)
      · simp only [swap_mutation, if_pos hif, hs] at h
        exact absurd h (by simp)
      · simp only [swap_mutation, if_pos hif, hs, Option.some.injEq,
          Prod.mk.injEq] at h
        obtain ⟨h1, _⟩ := h
        subst h1
        have hi : i < lineup.length :=
          List.mem_range.mp (hmem i (by simp))
        have hj : j < lineup.length :=
          List.mem_range.mp (hmem j (by simp))
        have hgdi : lineup.getD i defaultPlayer = lineup.get ⟨i, hi⟩ := by
          simp [List.getD_eq_getElem?_getD, List.getElem?_eq_getElem hi]
        have hgdj : lineup.getD j defaultPlayer = lineup.get ⟨j, hj⟩ := by
          simp [List.getD_eq_getElem?_getD, List.getElem?_eq_getElem hj]
        rw [swapPositions, hgdi, hgdj]
        exact set_set_swap_perm lineup i j hi hj
      · simp only [swap_mutation, if_pos hif, hs] at h
        exact absurd h (by simp)
  · simp only [swap_mutation, if_neg hif, Option.some.injEq,
      Prod.mk.injEq] at h
    obtain ⟨h1, _⟩ := h
    subst h1
    exact List.Perm.refl _

/-- The drawn cut points always yield a valid sorted pair, so every
successful order_crossover_draw output is a permutation of parent1 when the
parents are duplicate-free permutations of each other. -/
theorem order_crossover_draw_perm (parent1 parent2 : List Player)
    (r : Rng) (k : Nat) (child : List Player) (k2 : Nat)
    (hnd : parent1.Nodup) (hperm : List.Perm parent1 parent2)
    (h : order_crossover_draw parent1 parent2 r k = some (child, k2)) :
    List.Perm child parent1 := by
  cases hs : randSample (List.range parent1.length) 2 r k with
  | none =>
    simp only [order_crossover_draw, hs] at h
    exact absurd h (by simp)
  | some pr =>
    obtain ⟨idxs, k3⟩ := pr
    have hmem := randSample_mem 2 _ r k idxs k3 hs
    have hnodup := randSample_nodup 2 _ r k idxs k3 hs (List.nodup_range _)
    rcases idxs with _ | ⟨a, _ | ⟨b, _ | ⟨c, t⟩⟩⟩
    · simp only [order_crossover_draw, hs] at h
      exact absurd h (by simp)
    · simp only [order_crossover_draw, hs] at h
      exact absurd h (by simp)
    · simp only [order_crossover_draw, hs, Option.some.injEq,
        Prod.mk.injEq] at h
      obtain ⟨h1, _⟩ := h
      subst h1
      have hab : a ≠ b := by
        intro hcon
        subst hcon
        simp at hnodup
      have ha : a < parent1.length := List.mem_range.mp (hmem a (by simp))
      have hb : b < parent1.length := List.mem_range.mp (hmem b (by simp))
      exact order_crossover_perm parent1 parent2 (min a b) (max a b) hnd
        hperm (by omega) (by omega)
    · simp only [order_crossover_draw, hs] at h
      exact absurd h (by simp)

/-- C5: for duplicate-free parents that are permutations of the same player
set, order crossover yields, for every valid cut-point pair, a child that is
a permutation of that set — same length, no repeats, same membership — and
swap mutation always returns a permutation of its input lineup, preserving
the validity invariant; the randomly drawn cut points likewise always give a
permutation child. -/
theorem crossover_mutation_preserve_permutation
    (parent1 parent2 : List Player) (hnd : parent1.Nodup)
    (hperm : List.Perm parent1 parent2) :
    (∀ start stop, start < stop → stop < parent1.length →
      List.Perm (order_crossover parent1 parent2 start stop) parent1 ∧
      (order_crossover parent1 parent2 start stop).Nodup ∧
      (order_crossover parent1 parent2 start stop).length =
        parent1.length ∧
      (∀ q, q ∈ order_crossover parent1 parent2 start stop ↔
        q ∈ parent1)) ∧
    (∀ (r : Rng) (k : Nat) (child : List Player) (k2 : Nat),
      order_crossover_draw parent1 parent2 r k = some (child, k2) →
      List.Perm child parent1) ∧
    (∀ (lineup : List Player) (rate : ℚ) (r : Rng) (k : Nat)
        (out : List Player) (k2 : Nat),
      swap_mutation lineup rate r k = some (out, k2) →
      List.Perm out lineup ∧ (lineup.Nodup → out.Nodup) ∧
      out.length = lineup.length) := by
  refine ⟨?_, ?_, ?_⟩
  · intro start stop h1 h2
    have hp := order_crossover_perm parent1 parent2 start stop hnd hperm h1 h2
    exact ⟨hp, (hp.nodup_iff).mpr hnd, hp.length_eq, fun q => hp.mem_iff⟩
  · intro r k child k2 h
    exact order_crossover_draw_perm parent1 parent2 r k child k2 hnd hperm h
  · intro lineup rate r k out k2 h
    have hp := swap_mutation_perm lineup rate r k out k2 h
    exact ⟨hp, fun hnd2 => (hp.nodup_iff).mpr hnd2, hp.length_eq⟩

/-- Distinct players used by the crossover witness. -/
def wA : Player := ⟨"WA", 3, 1, 0, 0, 0⟩

/-- Second crossover witness player. -/
def wB : Player := ⟨"WB", 3, 0, 1, 0, 0⟩

/-- Third crossover witness player. -/
def wC : Player := ⟨"WC", 3, 0, 0, 1, 0⟩

/-- Witness for C5 on concrete parents [wA, wB, wC] and [wC, wA, wB] with
cut points 0 and 1. -/
theorem crossover_mutation_preserve_permutation_witness :
    ([wA, wB, wC].Nodup ∧ List.Perm [wA, wB, wC] [wC, wA, wB] ∧
      0 < 1 ∧ 1 < [wA, wB, wC].length) ∧
    (List.Perm (order_crossover [wA, wB, wC] [wC, wA, wB] 0 1)
        [wA, wB, wC] ∧
      (order_crossover [wA, wB, wC] [wC, wA, wB] 0 1).Nodup ∧
      (order_crossover [wA, wB, wC] [wC, wA, wB] 0 1).length =
        [wA, wB, wC].length ∧
      (∀ q, q ∈ order_crossover [wA, wB, wC] [wC, wA, wB] 0 1 ↔
        q ∈ [wA, wB, wC])) :=
  ⟨⟨by decide, by decide, by decide, by decide⟩,
    (crossover_mutation_preserve_permutation [wA, wB, wC] [wC, wA, wB]
      (by decide) (by decide)).1 0 1 (by decide) (by decide)⟩

/-- C10: the GeneticLineupOptimizer constructor clamps the stored lineup
size to min(lineup_size, roster size); create_random_lineup and
generate_random_lineup both always succeed (the without-replacement sample
never fails) and every lineup they produce has length
min(lineup_size, roster size), for every requested size and PRNG stream. -/
theorem lineup_size_clamped (players : List Player) (lineup_size : Nat)
    (r : Rng) (k : Nat) :
    gaLineupSize players lineup_size = min lineup_size players.length ∧
    (∃ lu k2, create_random_lineup players lineup_size r k = some (lu, k2) ∧
      lu.length = min lineup_size players.length) ∧
    (∃ lu k2, generate_random_lineup players lineup_size r k =
        some (lu, k2) ∧
      lu.length = min lineup_size players.length) := by
  refine ⟨rfl, ?_, ?_⟩
  · obtain ⟨out, k2, h1, h2⟩ := randSample_success
      (min lineup_size players.length) players r k (Nat.min_le_right _ _)
    exact ⟨out, k2, h1, h2⟩
  · have hsize : (if players.length < lineup_size then players.length
        else lineup_size) = min lineup_size players.length := by
      split <;> omega
    rw [generate_random_lineup, hsize]
    obtain ⟨out, k2, h1, h2⟩ := randSample_success
      (min lineup_size players.length) players r k (Nat.min_le_right _ _)
    exact ⟨out, k2, h1, h2⟩

/-- initialize_population from genetic_optimizer.py: reset the population
and fill it with population_size fresh random lineups. -/
def init_population (players : List Player) (lineup_size : Nat) :
    Nat → Rng → Nat → Option (List (List Player) × Nat)
  | 0, _, k => some ([], k)
  | n + 1, r, k =>
    match create_random_lineup players lineup_size r k with
    | none => none
    | some (lu, k2) =>
      match init_population players lineup_size n r k2 with
      | none => none
      | some (rest, k3) => some (lu :: rest, k3)

/-- The first action of GeneticLineupOptimizer.optimize (line 117) is
self.initialize_population(), which replaces self.population wholesale with
fresh random lineups; the previous population content — the first argument
here — is ignored. -/
def optimize_first_population (_previous : List (List Player))
    (players : List Player) (lineup_size population_size : Nat) (r : Rng)
    (k : Nat) : Option (List (List Player) × Nat) :=
  init_population players lineup_size population_size r k

/-- The population installed by MasterLineupOptimizer.run_genetic_phase
(lines 99-106) before it calls optimize: the seed lineups, padded with
random lineups up to population_size. -/
def run_genetic_phase_seeded (seeds : List (List Player))
    (players : List Player) (lineup_size population_size : Nat) (r : Rng)
    (k : Nat) : Option (List (List Player) × Nat) :=
  (init_population players lineup_size (population_size - seeds.length) r
    k).map (fun x => (seeds ++ x.1, x.2))

/-- The population the engine actually evaluates in its first generation
when driven by run_genetic_phase: the seeding step runs, then optimize
starts by re-initializing the population. -/
def run_genetic_phase_first_eval_population (seeds : List (List Player))
    (players : List Player) (lineup_size population_size : Nat) (r : Rng)
    (k : Nat) : Option (List (List Player) × Nat) :=
  match run_genetic_phase_seeded seeds players lineup_size population_size
      r k with
  | none => none
  | some (pop, k2) =>
    optimize_first_population pop players lineup_size population_size r k2

/-- First player of the seeding scenario. -/
def mA : Player := ⟨"MA", 1, 0, 0, 0, 0⟩

/-- Second player of the seeding scenario. -/
def mB : Player := ⟨"MB", 1, 0, 0, 0, 0⟩

/-- C1 evidence: with roster [mA, mB], lineup size 2, population size 1 and
the all-zero PRNG stream, run_genetic_phase installs exactly the seeded
population [[mB, mA]], yet the population evaluated by the first generation
is the freshly drawn [[mA, mB]]: the seeded lineup is discarded by the
initialization step of optimize and is absent from the population the first
generation operates on. -/
theorem seed_population_discarded :
    run_genetic_phase_seeded [[mB, mA]] [mA, mB] 2 1 (fun _ => 0) 0 =
      some ([[mB, mA]], 0) ∧
    run_genetic_phase_first_eval_population [[mB, mA]] [mA, mB] 2 1
      (fun _ => 0) 0 = some ([[mA, mB]], 2) ∧
    [mB, mA] ∈ [[mB, mA]] ∧ [mB, mA] ∉ [[mA, mB]] := by
  refine ⟨by decide, by decide, by decide, by decide⟩

/-- FitnessCache from genetic_optimizer.py: a mapping from the ordered tuple
of player names to the cached mean-runs fitness, modelled as an association
list with freshest entries first. -/
abbrev FitnessCache : Type := List (List String × ℚ)

/-- Canonical Lineup identity used as the cache key:
tuple(player.name for player in lineup). -/
def lineupKey (lineup : List Player) : List String :=
  lineup.map Player.name

/-- The run totals of num_games consecutive simulated games, threading the
PRNG position. -/
def gameTotals (lineup : List Player) (innings : Nat) (r : Rng)
    (fuel : Nat) : Nat → Nat → Option (List Nat × Nat)
  | 0, k => some ([], k)
  | n + 1, k =>
    match simulate_game lineup r fuel innings k with
    | none => none
    | some (total, _, k2) =>
      match gameTotals lineup innings r fuel n k2 with
      | none => none
      | some (rest, k3) => some (total :: rest, k3)

/-- evaluate_lineup from lineup_optimizer.py, reduced to the mean-runs
fitness consumed by the engine: simulate num_games games and average the
totals (statistics.mean fails on an empty sequence, so num_games = 0 yields
none). -/
def evaluate_lineup (lineup : List Player) (num_games innings : Nat)
    (r : Rng) (fuel k : Nat) : Option (ℚ × Nat) :=
  match gameTotals lineup innings r fuel num_games k with
  | none => none
  | some (totals, k2) =>
    if num_games = 0 then none
    else some (((totals.sum : Nat) : ℚ) / (num_games : ℚ), k2)

/-- evaluate_fitness from genetic_optimizer.py: consult the FitnessCache by
the lineup key; on a miss, simulate and store; on a hit, return the cached
value without consuming any randomness. -/
def evaluate_fitness (cache : FitnessCache) (lineup : List Player)
    (num_games innings : Nat) (r : Rng) (fuel k : Nat) :
    Option (ℚ × FitnessCache × Nat) :=
  match List.lookup (lineupKey lineup) cache with
  | some v => some (v, cache, k)
  | none =>
    match evaluate_lineup lineup num_games innings r fuel k with
    | none => none
    | some (m, k2) => some (m, (lineupKey lineup, m) :: cache, k2)

/-- The fitness-evaluation loop at the top of evolve_generation: evaluate
every lineup of the population in order, threading the cache and the PRNG
position. -/
def fitnessScores (num_games innings : Nat) (r : Rng) (fuel : Nat) :
    List (List Player) → FitnessCache → Nat →
      Option (List ℚ × FitnessCache × Nat)
  | [], cache, k => some ([], cache, k)
  | lineup :: rest, cache, k =>
    match evaluate_fitness cache lineup num_games innings r fuel k with
    | none => none
    | some (v, cache2, k2) =>
      match fitnessScores num_games innings r fuel rest cache2 k2 with
      | none => none
      | some (vs, cache3, k3) => some (v :: vs, cache3, k3)

/-- Python max over (index, fitness) pairs keyed by fitness: returns the
first pair whose fitness is not exceeded later (first maximum on ties);
fails on an empty tournament. -/
def maxBySnd : List (Nat × ℚ) → Option (Nat × ℚ)
  | [] => none
  | x :: xs => some (xs.foldl (fun acc y => if y.2 > acc.2 then y else acc) x)

/-- tournament_selection from genetic_optimizer.py: draw tournament_size
distinct population indices, pair them with their fitness scores, return a
copy of the lineup of the first highest-fitness index. -/
def tournament_selection (population : List (List Player))
    (fitness_scores : List ℚ) (tournament_size : Nat) (r : Rng) (k : Nat) :
    Option (List Player × Nat) :=
  match randSample (List.range population.length) tournament_size r k with
  | none => none
  | some (idxs, k2) =>
    match maxBySnd (idxs.map (fun i => (i, fitness_scores.getD i 0))) with
    | none => none
    | some w => some (population.getD w.1 [], k2)

/-- The offspring while loop of evolve_generation: repeatedly select two
parents by tournament, recombine by order crossover and mutate, until the
requested number of offspring have been produced. -/
def offspringLoop (population : List (List Player))
    (fitness_scores : List ℚ) (tournament_size : Nat)
    (mutation_rate : ℚ) (r : Rng) :
    Nat → Nat → Option (List (List Player) × Nat)
  | 0, k => some ([], k)
  | n + 1, k =>
    match tournament_selection population fitness_scores tournament_size
        r k with
    | none => none
    | some (parent1, k1) =>
      match tournament_selection population fitness_scores tournament_size
          r k1 with
      | none => none
      | some (parent2, k2) =>
        match order_crossover_draw parent1 parent2 r k2 with
        | none => none
        | some (child, k3) =>
          match swap_mutation child mutation_rate r k3 with
          | none => none
          | some (child2, k4) =>
            match offspringLoop population fitness_scores tournament_size
                mutation_rate r n k4 with
            | none => none
            | some (rest, k5) => some (child2 :: rest, k5)

/-- Index of the elite: fitness_scores.index(max(fitness_scores)), the
first position holding the maximum score. -/
def bestIndex (scores : List ℚ) (mx : ℚ) : Nat :=
  scores.indexOf mx

/-- evolve_generation from genetic_optimizer.py: evaluate the population,
copy the single best lineup (first index on ties) into the next population,
fill the rest with offspring, and return the new population together with
the scores, the best fitness, the updated cache and PRNG position. -/
def evolve_generation (population : List (List Player))
    (tournament_size : Nat) (mutation_rate : ℚ)
    (population_size num_games innings : Nat) (r : Rng) (fuel : Nat)
    (cache : FitnessCache) (k : Nat) :
    Option (List (List Player) × List ℚ × ℚ × FitnessCache × Nat) :=
  match fitnessScores num_games innings r fuel population cache k with
  | none => none
  | some (scores, cache1, k1) =>
    match scores.max? with
    | none => none
    | some mx =>
      match offspringLoop population scores tournament_size mutation_rate
          r (population_size - 1) k1 with
      | none => none
      | some (offspring, k2) =>
        some ((population.getD (bestIndex scores mx) []) :: offspring,
          scores, mx, cache1, k2)

/-- C7: after any successful evaluate_fitness call, the returned value is
stored in the returned cache under the ordered name tuple of the lineup; any
later call with the same Lineup identity returns the identical value with
the cache and the PRNG position unchanged (no simulation); and no later
evaluate_fitness call on any lineup ever removes or changes that entry
(lookup is preserved). -/
theorem evaluate_fitness_cached (cache : FitnessCache)
    (lineup : List Player) (num_games innings : Nat) (r : Rng)
    (fuel k : Nat) (v : ℚ) (cache2 : FitnessCache) (k2 : Nat)
    (h : evaluate_fitness cache lineup num_games innings r fuel k =
      some (v, cache2, k2)) :
    List.lookup (lineupKey lineup) cache2 = some v ∧
    (∀ (r2 : Rng) (fuel2 k3 : Nat),
      evaluate_fitness cache2 lineup num_games innings r2 fuel2 k3 =
        some (v, cache2, k3)) ∧
    (∀ (lineup2 : List Player) (ng2 in2 : Nat) (r2 : Rng) (fuel2 k3 : Nat)
        (v2 : ℚ) (cache3 : FitnessCache) (k4 : Nat),
      evaluate_fitness cache2 lineup2 ng2 in2 r2 fuel2 k3 =
        some (v2, cache3, k4) →
      List.lookup (lineupKey lineup) cache3 = some v) := by
  have hmain : List.lookup (lineupKey lineup) cache2 = some v := by
    cases hl : List.lookup (lineupKey lineup) cache with
    | some v0 =>
      simp only [evaluate_fitness, hl, Option.some.injEq,
        Prod.mk.injEq] at h
      obtain ⟨h1, h2, _⟩ := h
      subst h1 h2
      exact hl
    | none =>
      cases he : evaluate_lineup lineup num_games innings r fuel k with
      | none =>
        simp only [evaluate_fitness, hl, he] at h
        exact absurd h (by simp)
      | some pr =>
        obtain ⟨m, k5⟩ := pr
        simp only [evaluate_fitness, hl, he, Option.some.injEq,
          Prod.mk.injEq] at h
        obtain ⟨h1, h2, _⟩ := h
        subst h1 h2
        simp [List.lookup]
  refine ⟨hmain, ?_, ?_⟩
  · intro r2 fuel2 k3
    simp only [evaluate_fitness, hmain]
  · intro lineup2 ng2 in2 r2 fuel2 k3 v2 cache3 k4 h2
    cases hl2 : List.lookup (lineupKey lineup2) cache2 with
    | some v0 =>
      simp only [evaluate_fitness, hl2, Option.some.injEq,
        Prod.mk.injEq] at h2
      obtain ⟨_, h3, _⟩ := h2
      subst h3
      exact hmain
    | none =>
      cases he2 : evaluate_lineup lineup2 ng2 in2 r2 fuel2 k3 with
      | none =>
        simp only [evaluate_fitness, hl2, he2] at h2
        exact absurd h2 (by simp)
      | some pr =>
        obtain ⟨m2, k6⟩ := pr
        simp only [evaluate_fitness, hl2, he2, Option.some.injEq,
          Prod.mk.injEq] at h2
        obtain ⟨_, h3, _⟩ := h2
        subst h3
        have hne : lineupKey lineup2 ≠ lineupKey lineup := by
          intro hcon
          rw [hcon, hmain] at hl2
          exact absurd hl2 (by simp)
        have hbeq : (lineupKey lineup == lineupKey lineup2) = false :=
          beq_eq_false_iff_ne.mpr (fun hcon => hne hcon.symm)
        simp [List.lookup, hbeq, hmain]

/-- Witness for C7: a first (miss) call on the always-out one-player lineup
computes fitness 0, stores it, and a second call returns the same value
without consuming randomness. -/
theorem evaluate_fitness_cached_witness :
    evaluate_fitness [] [pAllOut] 1 1 (fun _ => 0) 4 0 =
      some (0, [(["A"], 0)], 3) ∧
    evaluate_fitness [(["A"], 0)] [pAllOut] 1 1 (fun _ => 1) 0 99 =
      some (0, [(["A"], 0)], 99) := by
  have hts : gameTotals [pAllOut] 1 (fun _ => 0) 4 1 0 = some ([0], 3) := by
    decide
  have h2 : evaluate_lineup [pAllOut] 1 1 (fun _ => 0) 4 0 = some (0, 3) := by
    rw [evaluate_lineup, hts]
    simp
  have h : evaluate_fitness [] [pAllOut] 1 1 (fun _ => 0) 4 0 =
      some (0, [(["A"], 0)], 3) := by
    simp only [evaluate_fitness, List.lookup]
    rw [h2]
    simp [lineupKey, pAllOut]
  exact ⟨h,
    (evaluate_fitness_cached [] [pAllOut] 1 1 (fun _ => 0) 4 0 0
      [(["A"], 0)] 3 h).2.1 (fun _ => 1) 0 99⟩

/-- The fitness loop returns one score per population member. -/
theorem fitnessScores_length (num_games innings : Nat) (r : Rng)
    (fuel : Nat) :
    ∀ (pop : List (List Player)) (cache : FitnessCache) (k : Nat)
      (scores : List ℚ) (cache2 : FitnessCache) (k2 : Nat),
      fitnessScores num_games innings r fuel pop cache k =
        some (scores, cache2, k2) →
      scores.length = pop.length := by
  intro pop
  induction pop with
  | nil =>
    intro cache k scores cache2 k2 h
    simp only [fitnessScores, Option.some.injEq, Prod.mk.injEq] at h
    obtain ⟨h1, _⟩ := h
    subst h1
    rfl
  | cons lu rest ih =>
    intro cache k scores cache2 k2 h
    cases hev : evaluate_fitness cache lu num_games innings r fuel k with
    | none =>
      simp only [fitnessScores, hev] at h
      exact absurd h (by simp)
    | some pr =>
      obtain ⟨v, cacheA, kA⟩ := pr
      cases hfs : fitnessScores num_games innings r fuel rest cacheA kA with
      | none =>
        simp only [fitnessScores, hev, hfs] at h
        exact absurd h (by simp)
      | some pr2 =>
        obtain ⟨vs, cacheB, kB⟩ := pr2
        simp only [fitnessScores, hev, hfs, Option.some.injEq,
          Prod.mk.injEq] at h
        obtain ⟨h1, _⟩ := h
        subst h1
        simp [ih _ _ _ _ _ hfs]

/-- C6: whenever evolve_generation returns, the first member of the new
population is exactly the current population member at the first index of
the maximal fitness score, it is a member of the new population, the score
list covers the whole population, the score at that index is the maximum,
and every earlier index has a strictly different (hence smaller) score. -/
theorem evolve_generation_elitism (population : List (List Player))
    (tournament_size : Nat) (mutation_rate : ℚ)
    (population_size num_games innings : Nat) (r : Rng) (fuel : Nat)
    (cache : FitnessCache) (k : Nat) (newPop : List (List Player))
    (scores : List ℚ) (mx : ℚ) (cache2 : FitnessCache) (k2 : Nat)
    (h : evolve_generation population tournament_size mutation_rate
      population_size num_games innings r fuel cache k =
      some (newPop, scores, mx, cache2, k2)) :
    scores.max? = some mx ∧
    scores.length = population.length ∧
    bestIndex scores mx < scores.length ∧
    scores.getD (bestIndex scores mx) 0 = mx ∧
    (∀ j, j < bestIndex scores mx → scores.getD j 0 ≠ mx) ∧
    newPop.head? = some (population.getD (bestIndex scores mx) []) ∧
    population.getD (bestIndex scores mx) [] ∈ newPop := by
  cases hfs : fitnessScores num_games innings r fuel population cache k with
  | none =>
    simp only [evolve_generation, hfs] at h
    exact absurd h (by simp)
  | some pr =>
    obtain ⟨scores1, cache1, k1⟩ := pr
    cases hmx : scores1.max? with
    | none =>
      simp only [evolve_generation, hfs, hmx] at h
      exact absurd h (by simp)
    | some mx1 =>
      cases hol : offspringLoop population scores1 tournament_size
          mutation_rate r (population_size - 1) k1 with
      | none =>
        simp only [evolve_generation, hfs, hmx, hol] at h
        exact absurd h (by simp)
      | some pr2 =>
        obtain ⟨offspring, k3⟩ := pr2
        simp only [evolve_generation, hfs, hmx, hol, Option.some.injEq,
          Prod.mk.injEq] at h
        obtain ⟨hnew, hsc, hmxe, _, _⟩ := h
        rw [← hsc, ← hmxe, ← hnew]
        have hmem : mx1 ∈ scores1 :=
          List.max?_mem (fun a b => max_choice a b) hmx
        have hlt : bestIndex scores1 mx1 < scores1.length :=
          List.indexOf_lt_length.mpr hmem
        have hget : scores1.getD (bestIndex scores1 mx1) 0 = mx1 := by
          rw [List.getD_eq_getElem?_getD, List.getElem?_eq_getElem hlt,
            Option.getD_some]
          exact List.getElem_indexOf hlt
        refine ⟨hmx, fitnessScores_length _ _ _ _ _ _ _ _ _ _ hfs, hlt,
          hget, ?_, rfl, List.mem_cons_self _ _⟩
        intro j hj
        have hjlt : j < scores1.length := Nat.lt_trans hj hlt
        have hj2 : j < List.findIdx (fun x => x == mx1) scores1 := hj
        have hne := List.not_of_lt_findIdx hj2
        rw [List.getD_eq_getElem?_getD, List.getElem?_eq_getElem hjlt]
        simpa [beq_eq_false_iff_ne] using hne

/-- First player of the elitism witness scenario (always out). -/
def eA : Player := ⟨"EA", 1, 0, 0, 0, 0⟩

/-- Second player of the elitism witness scenario (always out). -/
def eB : Player := ⟨"EB", 1, 0, 0, 0, 0⟩

/-- Witness for C6: a full concrete generation step on a two-lineup
population; the best genome [eA, eB] (first index on the 0-0 tie) is copied
to the head of the new population and is a member of it. -/
theorem evolve_generation_elitism_witness :
    (evolve_generation [[eA, eB], [eB, eA]] 1 0 2 1 1 (fun _ => 0) 4 [] 0 =
      some ([[eA, eB], [eA, eB]], [0, 0], 0,
        [(["EB", "EA"], 0), (["EA", "EB"], 0)], 11)) ∧
    ([[eA, eB], [eA, eB]].head? =
      some ([[eA, eB], [eB, eA]].getD (bestIndex [0, 0] 0) []) ∧
      [[eA, eB], [eB, eA]].getD (bestIndex [0, 0] 0) [] ∈
        [[eA, eB], [eA, eB]]) := by
  have hts1 : gameTotals [eA, eB] 1 (fun _ => 0) 4 1 0 = some ([0], 3) := by
    decide
  have hts2 : gameTotals [eB, eA] 1 (fun _ => 0) 4 1 3 = some ([0], 6) := by
    decide
  have hevl1 : evaluate_lineup [eA, eB] 1 1 (fun _ => 0) 4 0 =
      some (0, 3) := by
    rw [evaluate_lineup, hts1]
    simp
  have hevl2 : evaluate_lineup [eB, eA] 1 1 (fun _ => 0) 4 3 =
      some (0, 6) := by
    rw [evaluate_lineup, hts2]
    simp
  have hev1 : evaluate_fitness [] [eA, eB] 1 1 (fun _ => 0) 4 0 =
      some (0, [(["EA", "EB"], 0)], 3) := by
    simp only [evaluate_fitness, List.lookup]
    rw [hevl1]
    simp [lineupKey, eA, eB]
  have hev2 : evaluate_fitness [(["EA", "EB"], 0)] [eB, eA] 1 1
      (fun _ => 0) 4 3 =
      some (0, [(["EB", "EA"], 0), (["EA", "EB"], 0)], 6) := by
    simp only [evaluate_fitness]
    rw [show List.lookup (lineupKey [eB, eA]) [(["EA", "EB"], (0 : ℚ))] =
      none from by decide]
    rw [hevl2]
    simp [lineupKey, eA, eB]
  have hfs : fitnessScores 1 1 (fun _ => 0) 4 [[eA, eB], [eB, eA]] [] 0 =
      some ([0, 0], [(["EB", "EA"], 0), (["EA", "EB"], 0)], 6) := by
    simp only [fitnessScores, hev1, hev2]
  have htour6 : tournament_selection [[eA, eB], [eB, eA]] [0, 0] 1
      (fun _ => 0) 6 = some ([eA, eB], 7) := by decide
  have htour7 : tournament_selection [[eA, eB], [eB, eA]] [0, 0] 1
      (fun _ => 0) 7 = some ([eA, eB], 8) := by decide
  have hcross : order_crossover_draw [eA, eB] [eA, eB] (fun _ => 0) 8 =
      some ([eA, eB], 10) := by decide
  have hu : unitDraw (fun _ => 0) 10 = 0 := by simp [unitDraw]
  have hsm : swap_mutation [eA, eB] 0 (fun _ => 0) 10 =
      some ([eA, eB], 11) := by
    simp [swap_mutation, hu]
  have hol : offspringLoop [[eA, eB], [eB, eA]] [0, 0] 1 0 (fun _ => 0)
      1 6 = some ([[eA, eB]], 11) := by
    simp only [offspringLoop, htour6, htour7, hcross, hsm]
  have hmax : ([0, 0] : List ℚ).max? = some 0 := by decide
  have hbest : bestIndex [0, 0] 0 = 0 := by decide
  have h : evolve_generation [[eA, eB], [eB, eA]] 1 0 2 1 1 (fun _ => 0) 4
      [] 0 = some ([[eA, eB], [eA, eB]], [0, 0], 0,
        [(["EB", "EA"], 0), (["EA", "EB"], 0)], 11) := by
    simp only [evolve_generation, Nat.reduceSub, hfs, hmax, hol, hbest]
    simp [List.getD]
  exact ⟨h,
    (evolve_generation_elitism [[eA, eB], [eB, eA]] 1 0 2 1 1 (fun _ => 0)
      4 [] 0 [[eA, eB], [eA, eB]] [0, 0] 0
      [(["EB", "EA"], 0), (["EA", "EB"], 0)] 11 h).2.2.2.2.2⟩
